import Mathlib

/-!
# Verification of the CYOAI moderation core (`CYOAI_with_admin.py`)

Shallow embedding of the content-moderation filter of the repository
`Shadie8789/CYOAI`: the rule persistence layer (`load_rules`, `save_rules`,
`DEFAULT_RULES`, the `rules.json` backing file), the matcher
(`is_malicious`), and the admin mutation handlers (`admin_add_rule`,
`admin_remove_rule`) together with the module-level `BLOCKED_PATTERNS`
global.

Python strings are modelled as Lean `String`; Python string primitives used
by the source (`str.lower`, `str.startswith`, slicing `s[3:]`, `in`,
`str.strip`, `int(...)`) are modelled by explicit functions over the
character list, restricted to ASCII where Python's Unicode behaviour goes
beyond it (noted at each definition).  The JSON values that `json.load` can
produce are modelled by the inductive `JsonVal` (numbers as integers;
floats are not needed by any rule file the claims touch), and the backing
file `rules.json` by the inductive `Disk`.  Python's `re` module is
modelled for a documented fragment of its pattern language by a
Brzozowski-derivative matcher (`reCompile`, `reSearch`).
-/

namespace CYOAI

/-! ## Python string primitives -/

/-- Python `str.lower` restricted to ASCII: maps `'A'`–`'Z'` to lowercase and
leaves every other character unchanged.  (Python also lowercases non-ASCII
letters; the rules and texts in the claims are ASCII.) -/
def lowerChar (c : Char) : Char :=
  if 'A' ≤ c ∧ c ≤ 'Z' then Char.ofNat (c.toNat + 32) else c

/-- Python `text.lower()` (ASCII fragment, per `lowerChar`). -/
def pyLower (s : String) : String :=
  ⟨s.data.map lowerChar⟩

/-- Python `s.startswith(pre)`. -/
def pyStartsWith (s pre : String) : Bool :=
  pre.data.isPrefixOf s.data

/-- Python slicing `s[n:]`. -/
def pyDrop (s : String) (n : Nat) : String :=
  ⟨s.data.drop n⟩

/-- `containsSub needle hay` : the list `needle` occurs contiguously in
`hay`.  The empty needle occurs in every list, as in Python. -/
def containsSub (needle : List Char) : List Char → Bool
  | [] => needle.isEmpty
  | c :: t => needle.isPrefixOf (c :: t) || containsSub needle t

/-- Python substring membership `needle in hay`. -/
def pySubstrIn (needle hay : String) : Bool :=
  containsSub needle.data hay.data

/-- Python's whitespace characters for `str.strip`. -/
def isPySpace (c : Char) : Bool :=
  c = ' ' || c = '\t' || c = '\n' || c = '\r' || c = '\x0b' || c = '\x0c'

/-- Python `s.strip()`: removes leading and trailing whitespace. -/
def pyStrip (s : String) : String :=
  ⟨((s.data.dropWhile isPySpace).reverse.dropWhile isPySpace).reverse⟩

/-- Reads a nonempty all-digit character list as a natural number;
`none` otherwise. -/
def digitsToNat : List Char → Option Nat
  | [] => none
  | [c] => if c.isDigit then some (c.toNat - '0'.toNat) else none
  | c :: t =>
    if c.isDigit then
      (digitsToNat t).map (fun n => (c.toNat - '0'.toNat) * 10 ^ t.length + n)
    else none

/-- Python `int(s)` on a decimal string: surrounding whitespace is ignored,
an optional single sign is allowed, then decimal digits; `none` models
`ValueError`.  (Underscore digit separators are not modelled; no claim
uses them.) -/
def pyInt (s : String) : Option Int :=
  match (pyStrip s).data with
  | '-' :: rest => (digitsToNat rest).map (fun n => -(n : Int))
  | '+' :: rest => (digitsToNat rest).map (fun n => (n : Int))
  | cs => (digitsToNat cs).map (fun n => (n : Int))

/-! ## JSON values and the backing store

`rules.json` is read with `json.load` and written with `json.dump`.
`JsonVal` models the values `json.load` can produce (numbers as integers).
`Disk` models the state of the backing file `RULES_PATH`. -/

inductive JsonVal where
  | null
  | bool (b : Bool)
  | num (n : Int)
  | str (s : String)
  | arr (l : List JsonVal)
  | obj (fields : List (String × JsonVal))

/-- Whether a JSON value is a string (used to state claims about the shape
of loaded rule lists). -/
def JsonVal.isStr : JsonVal → Bool
  | .str _ => true
  | _ => false

/-- State of the backing file `rules.json`:  it is missing, or it exists
but its content fails `json.load` (unreadable / not valid JSON), or it
holds a parsed JSON value. -/
inductive Disk where
  | missing
  | unreadable
  | stored (v : JsonVal)

/-! ## Rules management (`load_rules`, `save_rules`, `DEFAULT_RULES`) -/

/-- `DEFAULT_RULES` from the source, verbatim. -/
def DEFAULT_RULES : List String :=
  ["ddos", "exploit", "zero-day", "backdoor", "rootkit",
   "trojan", "password cracking", "brute-force", "bypass security",
   "unauthorized", "how to hack", "delete data"]

/-- `save_rules(rules_list)` for a list of arbitrary JSON-serializable
values: `json.dump` overwrites the file with the array. -/
def save_rules_v (l : List JsonVal) : Disk :=
  Disk.stored (JsonVal.arr l)

/-- `save_rules(rules_list)` for a Python list of strings. -/
def save_rules (l : List String) : Disk :=
  save_rules_v (l.map JsonVal.str)

/-- `load_rules()`.  Returns the loaded rule list together with the state
of the backing file afterwards.  Paths, following the source: if the file
is missing it is first initialized with `DEFAULT_RULES`; then the file is
parsed; if parsing fails or the parsed value is not a list, the exception
handler writes `DEFAULT_RULES` and returns a copy of it; a parsed list is
returned as is (no check on its elements). -/
def load_rules (d : Disk) : List JsonVal × Disk :=
  let d0 := match d with
    | .missing => save_rules DEFAULT_RULES
    | _ => d
  match d0 with
  | .stored (JsonVal.arr l) => (l, d0)
  | _ => (DEFAULT_RULES.map JsonVal.str, save_rules DEFAULT_RULES)

/-! ## Python `re` — modelled fragment

`is_malicious` calls `re.search(pat[3:], t)` on regex-tagged rules, with no
flags; a pattern that fails to compile raises `re.error`, caught by the
handler around the rule check.  The `re` module is modelled for the
following fragment of its pattern language: ordinary characters, `.`
(any character except newline), `*` (with Python's "nothing to repeat" and
"multiple repeat" errors), alternation `|`, and groups `(`…`)` (with
Python's unbalanced-parenthesis errors).  Patterns containing any of the
unmodelled special characters `[ ] \x7b \x7d \ ^ $ + ?` are outside the
fragment: `inFragment` is `false` for them and theorems about regex rules
carry it (or a successful compilation) as a hypothesis, so nothing is
asserted about them. -/

/-- Regular expressions (semantics only; produced by `reCompile`). -/
inductive Regex where
  | fail
  | eps
  | char (c : Char)
  | anyChar
  | seq (a b : Regex)
  | alt (a b : Regex)
  | star (r : Regex)

/-- The regex matches the empty string. -/
def nullable : Regex → Bool
  | .fail => false
  | .eps => true
  | .char _ => false
  | .anyChar => false
  | .seq a b => nullable a && nullable b
  | .alt a b => nullable a || nullable b
  | .star _ => true

/-- Brzozowski derivative with respect to a character.  `.` does not match
a newline (no `re.DOTALL` flag is passed in the source). -/
def rderiv (c : Char) : Regex → Regex
  | .fail => .fail
  | .eps => .fail
  | .char d => if c = d then .eps else .fail
  | .anyChar => if c = '\n' then .fail else .eps
  | .seq a b =>
    if nullable a then .alt (.seq (rderiv c a) b) (rderiv c b)
    else .seq (rderiv c a) b
  | .alt a b => .alt (rderiv c a) (rderiv c b)
  | .star r => .seq (rderiv c r) (.star r)

/-- Some (possibly empty) leading segment of the character list matches the
regex. -/
def matchesHere : Regex → List Char → Bool
  | r, [] => nullable r
  | r, c :: t => nullable r || matchesHere (rderiv c r) t

/-- Some contiguous segment of the character list, starting anywhere,
matches the regex: the boolean content of `re.search`. -/
def searchList (r : Regex) : List Char → Bool
  | [] => nullable r
  | c :: t => matchesHere r (c :: t) || searchList r t

/-- Boolean content of `re.search(pattern, t)` for a compiled pattern:
Python's match object is only used for its truthiness in the source. -/
def reSearch (r : Regex) (t : String) : Bool :=
  searchList r t.data

/-- Special characters of Python patterns whose behaviour is not modelled
(character classes, braces, escapes, anchors, `+` and `?` quantifiers). -/
def unmodelledChars : List Char :=
  ['[', ']', '\x7b', '\x7d', '\\', '^', '$', '+', '?']

/-- The pattern lies in the modelled fragment of Python's `re` language. -/
def inFragment (p : String) : Bool :=
  p.data.all (fun c => !(unmodelledChars.contains c))

/-- Characters that are ordinary (self-matching) in the modelled fragment. -/
def metaChars : List Char :=
  ['.', '|', '*', '(', ')']

/-- The character is ordinary: it stands for itself in a pattern. -/
def ordinaryChar (c : Char) : Bool :=
  !(unmodelledChars.contains c) && !(metaChars.contains c)

/-- Grammar level of the pattern parser: an alternation (`cat ('|' cat)*`),
a concatenation of starred atoms, or one atom. -/
inductive ReLevel where
  | alt
  | cat
  | atom

/-- Recursive-descent parsing of the modelled pattern fragment, fuelled so
that the recursion is structural.  At level `.alt` it parses an
alternation, stopping before an unconsumed `')'` or at the end of input;
at level `.cat` a concatenation of starred atoms, stopping before `'|'` as
well, where a `'*'` with no preceding atom is Python's "nothing to repeat"
error and a `'*'` directly after a starred atom is Python's "multiple
repeat" error; at level `.atom` one atom — a group `(`…`)` (an unclosed
group being Python's unbalanced-parenthesis error), `.`, or an ordinary
character. -/
def parseRe : Nat → ReLevel → List Char → Option (Regex × List Char)
  | 0, _, _ => none
  | fuel + 1, .alt, s =>
    match parseRe fuel .cat s with
    | none => none
    | some (r, rest) =>
      match rest with
      | '|' :: t =>
        match parseRe fuel .alt t with
        | none => none
        | some (r₂, rest₂) => some (.alt r r₂, rest₂)
      | _ => some (r, rest)
  | _ + 1, .cat, [] => some (.eps, [])
  | fuel + 1, .cat, c :: t =>
    if c = ')' ∨ c = '|' then some (.eps, c :: t)
    else
      match parseRe fuel .atom (c :: t) with
      | none => none
      | some (a, rest) =>
        if rest.head? = some '*' then
          if rest.tail.head? = some '*' then none
          else
            match parseRe fuel .cat rest.tail with
            | none => none
            | some (r₂, rest₃) => some (.seq (.star a) r₂, rest₃)
        else
          match parseRe fuel .cat rest with
          | none => none
          | some (r₂, rest₃) => some (.seq a r₂, rest₃)
  | _ + 1, .atom, [] => none
  | fuel + 1, .atom, c :: t =>
    if c = '(' then
      match parseRe fuel .alt t with
      | some (r, ')' :: t₂) => some (r, t₂)
      | _ => none
    else if c = '*' then none
    else if c = '.' then some (.anyChar, t)
    else some (.char c, t)

/-- `re.compile(p)` on the modelled fragment: `some r` when Python
compiles `p` (to a pattern with the semantics of `r`), `none` when Python
raises `re.error` — or when `p` falls outside the modelled fragment, in
which case every theorem below keeps `p` out of scope via an `inFragment`
or compilation-success hypothesis. -/
def reCompile (p : String) : Option Regex :=
  if inFragment p then
    match parseRe (4 * p.length + 4) ReLevel.alt p.data with
    | some (r, []) => some r
    | _ => none
  else none

/-- The regex denoting one literal character sequence: the compiled form
of a pattern made only of ordinary characters. -/
def litSeq : List Char → Regex
  | [] => Regex.eps
  | c :: t => Regex.seq (Regex.char c) (litSeq t)

/-! ## The matcher (`is_malicious`) -/

/-- Body of the `try` block for one rule `pat` against the (already
lowercased) text `t`: a regex-tagged rule searches the text with the
compiled remainder of the rule — raising `re.error` (the `.error` case) if
it does not compile — and any other rule is a case-insensitive literal
substring test `pat.lower() in t`. -/
def tryRule (pat t : String) : Except Unit Bool :=
  if pyStartsWith pat "re:" then
    match reCompile (pyDrop pat 3) with
    | some r => .ok (reSearch r t)
    | none => .error ()
  else
    .ok (pySubstrIn (pyLower pat) t)

/-- One rule check with the source's `except` handler: on `re.error` the
rule falls back to the literal substring test on the *raw* rule text
(`pat.lower() in t`, with `pat` still carrying its `re:` marker). -/
def ruleMatches (pat t : String) : Bool :=
  match tryRule pat t with
  | .ok b => b
  | .error _ => pySubstrIn (pyLower pat) t

/-- The rule loop of `is_malicious`: returns `true` on the first matching
rule, `false` when no rule matches. -/
def is_maliciousAux (t : String) : List String → Bool
  | [] => false
  | pat :: rest => if ruleMatches pat t then true else is_maliciousAux t rest

/-- `is_malicious(text)`, with the module global `BLOCKED_PATTERNS` passed
explicitly as `patterns`: lowercases the text once, then runs the rule
loop. -/
def is_malicious (text : String) (patterns : List String) : Bool :=
  is_maliciousAux (pyLower text) patterns

/-! ## Admin mutation handlers

The handlers are modelled on their logged-in path (authentication is
enforced by the HTTP layer, out of scope per the spec).  The process state
they touch is the backing file plus the module global `BLOCKED_PATTERNS`;
flash messages are modelled by the inductive `Flash`, one constructor per
`flash(...)` call in the source. -/

/-- Process state seen by the moderation core: the backing file and the
module-level `BLOCKED_PATTERNS` list (whatever `load_rules` last returned
into it). -/
structure AppState where
  disk : Disk
  blocked : List JsonVal

/-- Flash messages of the admin handlers:
`.invalidIndex` = "Invalid index.", `.outOfRange` = "Index out of range.",
`.removed v` = "Removed rule: …", `.added p` = "Added rule: …",
`.emptyPattern` = "Empty pattern cannot be added.". -/
inductive Flash where
  | invalidIndex
  | outOfRange
  | removed (v : JsonVal)
  | added (p : String)
  | emptyPattern

/-- `admin_add_rule` (logged-in path): strips the submitted pattern,
rejects it if empty before touching the store, otherwise loads the rules,
appends the stripped pattern, saves, and — under its `global
BLOCKED_PATTERNS` declaration — reloads the global from disk. -/
def admin_add_rule (st : AppState) (patternForm : Option String) :
    AppState × Flash :=
  let pattern := pyStrip (patternForm.getD "")
  if pattern = "" then (st, Flash.emptyPattern)
  else
    let p₁ := load_rules st.disk
    let rules := p₁.1 ++ [JsonVal.str pattern]
    let d₂ := save_rules_v rules
    let p₂ := load_rules d₂
    ({ disk := p₂.2, blocked := p₂.1 }, Flash.added pattern)

/-- `admin_remove_rule` (logged-in path): parses the submitted index
(defaulting to `"-1"`), flashing "Invalid index." on a `ValueError`; loads
the rules; on an in-range index pops the element, saves, and executes
`BLOCKED_PATTERNS = load_rules()` — which, with no `global` declaration in
this function (unlike `admin_add_rule`, `admin_reload_rules` and
`admin_reset_rules`), binds a function-local name and leaves the module
global `st.blocked` unchanged; on an out-of-range index flashes "Index out
of range." without writing. -/
def admin_remove_rule (st : AppState) (indexForm : Option String) :
    AppState × Flash :=
  match pyInt (indexForm.getD "-1") with
  | none => (st, Flash.invalidIndex)
  | some idx =>
    let p₁ := load_rules st.disk
    let rules := p₁.1
    if 0 ≤ idx ∧ idx.toNat < rules.length then
      let removed := rules.getD idx.toNat (JsonVal.str "")
      let d₂ := save_rules_v (rules.eraseIdx idx.toNat)
      let p₂ := load_rules d₂
      ({ disk := p₂.2, blocked := st.blocked }, Flash.removed removed)
    else
      ({ disk := p₁.2, blocked := st.blocked }, Flash.outOfRange)

/-! ## Claims about the persistence layer -/

/-- **C7.**  For every well-formed sequence of strings `R`, performing
`save(R)` and then `load()` returns a sequence equal to `R` (as the JSON
array of those strings), and leaves the store as `save(R)` wrote it. -/
theorem C7_save_load_round_trip (R : List String) :
    load_rules (save_rules R) = (R.map JsonVal.str, save_rules R) := rfl

/-- **C4.**  If the backing store holds content that is unreadable, not
valid structured data, or not a list, then `load()` returns exactly the
default rule set and afterwards the backing store contains exactly the
default rule set. -/
theorem C4_corruption_recovery (d : Disk)
    (h : d = Disk.unreadable ∨
      ∃ v, d = Disk.stored v ∧ ∀ l, v ≠ JsonVal.arr l) :
    load_rules d =
      (DEFAULT_RULES.map JsonVal.str,
        Disk.stored (JsonVal.arr (DEFAULT_RULES.map JsonVal.str))) := by
  rcases h with rfl | ⟨v, rfl, hv⟩
  · rfl
  · cases v with
    | arr l => exact absurd rfl (hv l)
    | null => rfl
    | bool b => rfl
    | num n => rfl
    | str s => rfl
    | obj fields => rfl

/-- Witness for C4 at a concrete corrupt store: a JSON string instead of a
list. -/
theorem C4_corruption_recovery_witness :
    load_rules (Disk.stored (JsonVal.str "junk")) =
      (DEFAULT_RULES.map JsonVal.str,
        Disk.stored (JsonVal.arr (DEFAULT_RULES.map JsonVal.str))) :=
  C4_corruption_recovery _
    (Or.inr ⟨JsonVal.str "junk", rfl, fun _ h => JsonVal.noConfusion h⟩)

/-- **C6, counterexample.**  The claim "every value returned by `load()`
is a sequence in which every element is a string; any persisted content
that is not such a sequence of strings is treated as absent and replaced
by the default set" fails: a stored array holding the number `7` is
returned as is — an element that is not a string — and the store is not
replaced by the default set. -/
theorem C6_counterexample :
    (load_rules (Disk.stored (JsonVal.arr [JsonVal.num 7]))).1
        = [JsonVal.num 7]
    ∧ (load_rules (Disk.stored (JsonVal.arr [JsonVal.num 7]))).1.all
        JsonVal.isStr = false
    ∧ (load_rules (Disk.stored (JsonVal.arr [JsonVal.num 7]))).2
        = Disk.stored (JsonVal.arr [JsonVal.num 7]) :=
  ⟨rfl, rfl, rfl⟩

/-- **C6, amended.**  Every value returned by `load()` is a list, but its
elements are not validated: content that parses to a list is returned
exactly as stored with the store untouched, and only missing, unreadable,
or non-list content is replaced by the default set (in memory and on
disk). -/
theorem C6_amended_load_shape (d : Disk) :
    (∃ l, d = Disk.stored (JsonVal.arr l) ∧ load_rules d = (l, d))
    ∨ load_rules d =
        (DEFAULT_RULES.map JsonVal.str,
          Disk.stored (JsonVal.arr (DEFAULT_RULES.map JsonVal.str))) := by
  cases d with
  | missing => exact Or.inr rfl
  | unreadable => exact Or.inr rfl
  | stored v =>
    cases v with
    | arr l => exact Or.inl ⟨l, rfl, rfl⟩
    | null => exact Or.inr rfl
    | bool b => exact Or.inr rfl
    | num n => exact Or.inr rfl
    | str s => exact Or.inr rfl
    | obj fields => exact Or.inr rfl

/-! ## Helper lemmas about the matcher -/

/-- The empty needle occurs in every character list. -/
theorem containsSub_nil (hay : List Char) : containsSub [] hay = true := by
  cases hay with
  | nil => rfl
  | cons c t => simp [containsSub, List.isPrefixOf]

/-- The empty-string rule is a literal rule and matches every text. -/
theorem ruleMatches_empty (t : String) : ruleMatches "" t = true := by
  have h : pyStartsWith "" "re:" = false := rfl
  simp only [ruleMatches, tryRule, h, Bool.false_eq_true, if_false]
  exact containsSub_nil t.data

/-- The rule loop is the boolean "any rule matches" over the list. -/
theorem is_maliciousAux_eq_any (t : String) (R : List String) :
    is_maliciousAux t R = R.any (fun p => ruleMatches p t) := by
  induction R with
  | nil => rfl
  | cons p rest ih =>
    simp only [is_maliciousAux, List.any_cons, ih]
    cases ruleMatches p t <;> simp

/-- A rule without the `re:` marker is matched as a case-insensitive
literal substring of the text. -/
theorem ruleMatches_literal (pat t : String)
    (h : pyStartsWith pat "re:" = false) :
    ruleMatches pat t = pySubstrIn (pyLower pat) t := by
  simp only [ruleMatches, tryRule, h, Bool.false_eq_true, if_false]

/-! ## Claims about the matcher -/

/-- **C10.**  If the active rule list contains a literal rule equal to the
empty string, then the check blocks every text. -/
theorem C10_empty_rule_blocks_all (T : String) (R : List String)
    (h : "" ∈ R) : is_malicious T R = true := by
  unfold is_malicious
  rw [is_maliciousAux_eq_any]
  exact List.any_eq_true.mpr ⟨"", h, ruleMatches_empty _⟩

/-- Witness for C10: a single empty-string rule blocks an arbitrary
text. -/
theorem C10_empty_rule_blocks_all_witness :
    is_malicious "a perfectly harmless question" [""] = true :=
  C10_empty_rule_blocks_all _ [""] (List.mem_singleton.mpr rfl)

/-- **C3.**  `check(T, R)` is true exactly when some rule of `R` matches
the lowercased text; a rule without the regex marker matches exactly when
it is contained in the text as a case-insensitive substring; appending
further rules after a matching rule never changes a true verdict; and the
check is false when no rule matches. -/
theorem C3_check_first_match_semantics (T : String) (R S : List String)
    (pat : String) :
    (is_malicious T R = true ↔
      ∃ p ∈ R, ruleMatches p (pyLower T) = true)
    ∧ (pyStartsWith pat "re:" = false →
        ruleMatches pat (pyLower T) = pySubstrIn (pyLower pat) (pyLower T))
    ∧ (is_malicious T R = true → is_malicious T (R ++ S) = true)
    ∧ ((∀ p ∈ R, ruleMatches p (pyLower T) = false) →
        is_malicious T R = false) := by
  refine ⟨?_, fun h => ruleMatches_literal pat _ h, ?_, ?_⟩
  · unfold is_malicious
    rw [is_maliciousAux_eq_any]
    exact List.any_eq_true
  · unfold is_malicious
    rw [is_maliciousAux_eq_any, is_maliciousAux_eq_any, List.any_append]
    intro h
    rw [h, Bool.true_or]
  · unfold is_malicious
    rw [is_maliciousAux_eq_any]
    intro h
    rw [List.any_eq_false]
    intro p hp
    simp [h p hp]

/-- Witness for C3 at concrete inputs: the literal rule `"exploit"`
matches `"No EXPLOITS here"` case-insensitively, and the verdict survives
appending another rule. -/
theorem C3_check_first_match_semantics_witness :
    is_malicious "No EXPLOITS here" (["exploit"] ++ ["zzz"]) = true
    ∧ ruleMatches "exploit" (pyLower "No EXPLOITS here")
        = pySubstrIn (pyLower "exploit") (pyLower "No EXPLOITS here") := by
  refine ⟨?_, (C3_check_first_match_semantics "No EXPLOITS here" ["exploit"]
    ["zzz"] "exploit").2.1 rfl⟩
  refine (C3_check_first_match_semantics "No EXPLOITS here" ["exploit"]
    ["zzz"] "exploit").2.2.1 ?_
  exact (C3_check_first_match_semantics "No EXPLOITS here" ["exploit"]
    ["zzz"] "exploit").1.mpr ⟨"exploit", List.mem_singleton.mpr rfl, by decide⟩

/-- **C5.**  The check is total, and a regex rule whose pattern body fails
to compile degrades to literal substring matching of the raw rule text
(still carrying its `re:` marker), after which evaluation continues with
the remaining rules. -/
theorem C5_bad_regex_falls_back (p t : String) (rest : List String)
    (_hf : inFragment p = true) (hc : reCompile p = none) :
    is_malicious t (("re:" ++ p) :: rest)
      = (pySubstrIn (pyLower ("re:" ++ p)) (pyLower t)
          || is_malicious t rest) := by
  unfold is_malicious
  simp only [is_maliciousAux]
  have h1 : ruleMatches ("re:" ++ p) (pyLower t)
      = pySubstrIn (pyLower ("re:" ++ p)) (pyLower t) := by
    have hs : pyStartsWith ("re:" ++ p) "re:" = true := by
      simp [pyStartsWith, String.data_append, List.isPrefixOf]
    have hd : pyDrop ("re:" ++ p) 3 = p := rfl
    simp only [ruleMatches, tryRule, hs, if_true, hd, hc]
  rw [h1]
  cases pySubstrIn (pyLower ("re:" ++ p)) (pyLower t) <;> simp

/-- Witness for C5: the malformed pattern `(` (Python: "missing ),
unterminated subpattern") falls back to matching the raw text `re:(`. -/
theorem C5_bad_regex_falls_back_witness :
    inFragment "(" = true ∧ reCompile "(" = none
    ∧ is_malicious "try re:( today" ["re:(", "zzz"]
        = (pySubstrIn (pyLower "re:(") (pyLower "try re:( today")
            || is_malicious "try re:( today" ["zzz"]) :=
  ⟨rfl, rfl, C5_bad_regex_falls_back "(" "try re:( today" ["zzz"] rfl rfl⟩

/-! ## Helper lemmas about the regex model -/

/-- The empty regex accepts a leading segment of every list. -/
theorem matchesHere_eps (t : List Char) : matchesHere Regex.eps t = true := by
  cases t <;> simp [matchesHere, nullable]

/-- The failing regex accepts nothing. -/
theorem matchesHere_fail (t : List Char) :
    matchesHere Regex.fail t = false := by
  induction t with
  | nil => rfl
  | cons c t ih => simp [matchesHere, nullable, rderiv, ih]

/-- A sequence headed by the failing regex accepts nothing. -/
theorem matchesHere_seq_fail (r : Regex) (t : List Char) :
    matchesHere (Regex.seq Regex.fail r) t = false := by
  induction t with
  | nil => simp [matchesHere, nullable]
  | cons c t ih => simp [matchesHere, nullable, rderiv, ih]

/-- Matching a leading segment distributes over alternation. -/
theorem matchesHere_alt (a b : Regex) (t : List Char) :
    matchesHere (Regex.alt a b) t
      = (matchesHere a t || matchesHere b t) := by
  induction t generalizing a b with
  | nil => simp [matchesHere, nullable]
  | cons c t ih =>
    have hd : rderiv c (Regex.alt a b)
        = Regex.alt (rderiv c a) (rderiv c b) := rfl
    simp only [matchesHere, hd, nullable, ih]
    cases nullable a <;> cases nullable b <;>
      cases matchesHere (rderiv c a) t <;>
      cases matchesHere (rderiv c b) t <;> simp

/-- A leading empty regex in a sequence is transparent. -/
theorem matchesHere_seq_eps (r : Regex) (t : List Char) :
    matchesHere (Regex.seq Regex.eps r) t = matchesHere r t := by
  cases t with
  | nil => simp [matchesHere, nullable]
  | cons c t =>
    have hd : rderiv c (Regex.seq Regex.eps r)
        = Regex.alt (Regex.seq Regex.fail r) (rderiv c r) := rfl
    simp [matchesHere, nullable, hd, matchesHere_alt, matchesHere_seq_fail]

/-- The literal-sequence regex of `cs` accepts a leading segment of `t`
exactly when `cs` is a prefix of `t`. -/
theorem matchesHere_litSeq (cs : List Char) : ∀ t : List Char,
    matchesHere (litSeq cs) t = cs.isPrefixOf t := by
  induction cs with
  | nil => intro t; simp [litSeq, matchesHere_eps, List.isPrefixOf]
  | cons c cs ih =>
    intro t
    cases t with
    | nil => simp [litSeq, matchesHere, nullable, List.isPrefixOf]
    | cons d t =>
      by_cases hdc : d = c
      · subst hdc
        have hd : rderiv d (Regex.seq (Regex.char d) (litSeq cs))
            = Regex.seq Regex.eps (litSeq cs) := by
          simp [rderiv, nullable]
        simp [litSeq, matchesHere, nullable, hd, matchesHere_seq_eps, ih,
          List.isPrefixOf]
      · have hd : rderiv d (Regex.seq (Regex.char c) (litSeq cs))
            = Regex.seq Regex.fail (litSeq cs) := by
          simp [rderiv, nullable, hdc]
        have hne : (c == d) = false := by
          exact beq_eq_false_iff_ne.mpr (Ne.symm hdc)
        simp [litSeq, matchesHere, nullable, hd, matchesHere_seq_fail,
          List.isPrefixOf, hne]

/-- The literal-sequence regex accepts the empty string exactly when the
sequence is empty. -/
theorem nullable_litSeq (cs : List Char) :
    nullable (litSeq cs) = cs.isEmpty := by
  cases cs <;> simp [litSeq, nullable, List.isEmpty]

/-- Searching for a literal-sequence regex is substring containment. -/
theorem searchList_litSeq (cs : List Char) : ∀ t : List Char,
    searchList (litSeq cs) t = containsSub cs t := by
  intro t
  induction t with
  | nil => simp [searchList, containsSub, nullable_litSeq]
  | cons c t ih => simp [searchList, containsSub, matchesHere_litSeq, ih]

/-- An ordinary character is none of the fragment's special characters. -/
theorem ordinaryChar_ne (c : Char) (h : ordinaryChar c = true) :
    c ≠ '(' ∧ c ≠ ')' ∧ c ≠ '*' ∧ c ≠ '.' ∧ c ≠ '|' := by
  simp [ordinaryChar, metaChars, unmodelledChars, List.contains] at h
  tauto

/-- The parser reads one ordinary character as a literal atom. -/
theorem parseRe_atom_ordinary (c : Char) (t : List Char) (fuel : Nat)
    (h : ordinaryChar c = true) :
    parseRe (fuel + 1) ReLevel.atom (c :: t) = some (Regex.char c, t) := by
  obtain ⟨h1, _, h3, h4, _⟩ := ordinaryChar_ne c h
  simp [parseRe, h1, h3, h4]

/-- The parser reads a list of ordinary characters, at concatenation
level, as the literal-sequence regex. -/
theorem parseRe_cat_ordinary : ∀ (cs : List Char),
    cs.all ordinaryChar = true → ∀ fuel, cs.length + 1 ≤ fuel →
      parseRe fuel ReLevel.cat cs = some (litSeq cs, []) := by
  intro cs
  induction cs with
  | nil =>
    intro _ fuel hf
    cases fuel with
    | zero => omega
    | succ f => simp [parseRe, litSeq]
  | cons c cs ih =>
    intro h fuel hf
    rw [List.all_cons, Bool.and_eq_true] at h
    obtain ⟨hc, hcs⟩ := h
    obtain ⟨h1, h2, h3, h4, h5⟩ := ordinaryChar_ne c hc
    have hne : ¬(c = ')' ∨ c = '|') := by tauto
    cases fuel with
    | zero => rw [List.length_cons] at hf; omega
    | succ f =>
    cases f with
    | zero => rw [List.length_cons] at hf; omega
    | succ f' =>
      cases cs with
      | nil =>
        simp [parseRe, hne, h1, h3, h4, litSeq]
      | cons d t =>
        have hd0 : ordinaryChar d = true := by
          rw [List.all_cons, Bool.and_eq_true] at hcs
          exact hcs.1
        have hdne : d ≠ '*' := (ordinaryChar_ne d hd0).2.2.1
        have hrec : parseRe (f' + 1) ReLevel.cat (d :: t)
            = some (litSeq (d :: t), []) := by
          refine ih hcs (f' + 1) ?_
          simp only [List.length_cons] at hf ⊢
          omega
        show (if c = ')' ∨ c = '|' then some (Regex.eps, c :: d :: t)
          else
            match parseRe (f' + 1) ReLevel.atom (c :: d :: t) with
            | none => none
            | some (a, rest) =>
              if rest.head? = some '*' then
                if rest.tail.head? = some '*' then none
                else
                  match parseRe (f' + 1) ReLevel.cat rest.tail with
                  | none => none
                  | some (r₂, rest₃) =>
                    some (Regex.seq (Regex.star a) r₂, rest₃)
              else
                match parseRe (f' + 1) ReLevel.cat rest with
                | none => none
                | some (r₂, rest₃) => some (Regex.seq a r₂, rest₃))
          = some (litSeq (c :: d :: t), [])
        rw [if_neg hne, parseRe_atom_ordinary c (d :: t) f' hc]
        show (if (d :: t).head? = some '*' then
            if (d :: t).tail.head? = some '*' then none
            else
              match parseRe (f' + 1) ReLevel.cat (d :: t).tail with
              | none => none
              | some (r₂, rest₃) =>
                some (Regex.seq (Regex.star (Regex.char c)) r₂, rest₃)
          else
            match parseRe (f' + 1) ReLevel.cat (d :: t) with
            | none => none
            | some (r₂, rest₃) => some (Regex.seq (Regex.char c) r₂, rest₃))
          = some (litSeq (c :: d :: t), [])
        rw [if_neg (by simp [hdne]), hrec]
        rfl

/-- The parser reads a list of ordinary characters, at alternation level,
as the literal-sequence regex. -/
theorem parseRe_alt_ordinary (cs : List Char)
    (h : cs.all ordinaryChar = true) (fuel : Nat)
    (hf : cs.length + 2 ≤ fuel) :
    parseRe fuel ReLevel.alt cs = some (litSeq cs, []) := by
  cases fuel with
  | zero => exact absurd hf (by omega)
  | succ f =>
    simp only [parseRe]
    rw [parseRe_cat_ordinary cs h f (by omega)]

/-- A pattern made only of ordinary characters compiles, to the
literal-sequence regex of its characters. -/
theorem reCompile_ordinary (p : String)
    (h : p.data.all ordinaryChar = true) :
    reCompile p = some (litSeq p.data) := by
  have hfrag : inFragment p = true := by
    rw [inFragment, List.all_eq_true]
    intro c hc
    have hcord := List.all_eq_true.mp h c hc
    rw [ordinaryChar, Bool.and_eq_true] at hcord
    exact hcord.1
  rw [reCompile, if_pos hfrag]
  have hlen : p.length = p.data.length := rfl
  rw [parseRe_alt_ordinary p.data h (4 * p.length + 4) (by omega)]

/-! ## Claims about regex rules -/

/-- **C2, counterexample.**  The claim that regex-rule matching is
case-insensitive in the pattern fails: on the text `"a"`, the rule
`"re:a"` blocks but the rule `"re:A"` — the same pattern with only its
letter case changed — does not. -/
theorem C2_counterexample :
    is_malicious "a" ["re:a"] = true ∧ is_malicious "a" ["re:A"] = false :=
  ⟨rfl, rfl⟩

/-- **C2, amended.**  For a rule `re:p` whose pattern body compiles (in
the modelled fragment), the check matches the rule exactly when `p`
matches somewhere in the lowercased text under case-sensitive regex
semantics; changing only the letter case of the text never changes any
verdict, but (per the counterexample) changing the letter case of the
pattern can.  For a pattern of ordinary characters this matching is
exactly case-sensitive substring containment of `p` in the lowercased
text. -/
theorem C2_regex_case_semantics (p : String) (r : Regex) (t t' : String)
    (hc : reCompile p = some r) (ht : pyLower t = pyLower t') :
    (is_malicious t ["re:" ++ p] = reSearch r (pyLower t))
    ∧ (∀ R, is_malicious t R = is_malicious t' R)
    ∧ (p.data.all ordinaryChar = true →
        is_malicious t ["re:" ++ p] = pySubstrIn p (pyLower t)) := by
  have hs : pyStartsWith ("re:" ++ p) "re:" = true := by
    simp [pyStartsWith, String.data_append, List.isPrefixOf]
  have hd : pyDrop ("re:" ++ p) 3 = p := rfl
  have hone : is_malicious t ["re:" ++ p] = reSearch r (pyLower t) := by
    unfold is_malicious
    have hrm : ruleMatches ("re:" ++ p) (pyLower t) = reSearch r (pyLower t) := by
      simp only [ruleMatches, tryRule, hs, if_true, hd, hc]
    simp only [is_maliciousAux, hrm]
    cases reSearch r (pyLower t) <;> simp
  refine ⟨hone, fun R => by unfold is_malicious; rw [ht], fun hord => ?_⟩
  have hlit := reCompile_ordinary p hord
  rw [hc] at hlit
  have hr : r = litSeq p.data := Option.some.inj hlit
  subst hr
  rw [hone]
  show searchList (litSeq p.data) (pyLower t).data = _
  rw [searchList_litSeq]
  rfl

/-- Witness for C2 (amended) at the ordinary pattern `b`, and texts
differing only in letter case. -/
theorem C2_regex_case_semantics_witness :
    is_malicious "aB" ["re:b"]
        = reSearch (Regex.seq (Regex.char 'b') Regex.eps) (pyLower "aB")
    ∧ is_malicious "aB" ["hack"] = is_malicious "Ab" ["hack"]
    ∧ is_malicious "aB" ["re:b"] = pySubstrIn "b" (pyLower "aB") :=
  ⟨(C2_regex_case_semantics "b" (Regex.seq (Regex.char 'b') Regex.eps)
      "aB" "Ab" rfl rfl).1,
   (C2_regex_case_semantics "b" (Regex.seq (Regex.char 'b') Regex.eps)
      "aB" "Ab" rfl rfl).2.1 ["hack"],
   (C2_regex_case_semantics "b" (Regex.seq (Regex.char 'b') Regex.eps)
      "aB" "Ab" rfl rfl).2.2 rfl⟩

/-! ## Claims about the admin handlers -/

/-- **C1 (evaluation at the failing input).**  With `rules.json` holding
`["exploit"]` and `BLOCKED_PATTERNS` equal to `["exploit"]`, a remove of
index `0` deletes the rule from the persisted store and reports success —
but leaves the in-memory `BLOCKED_PATTERNS` unchanged, because the
assignment `BLOCKED_PATTERNS = load_rules()` in `admin_remove_rule` has no
`global` declaration and binds a function-local name.  Checks keep
consulting the stale in-memory list, so the removed rule still blocks
(`is_malicious` over the stale list is `true`), while the persisted
(empty) rule set would not block. -/
theorem C1_remove_leaves_memory_stale :
    admin_remove_rule
        ⟨Disk.stored (JsonVal.arr [JsonVal.str "exploit"]),
          [JsonVal.str "exploit"]⟩ (some "0")
      = (⟨Disk.stored (JsonVal.arr []), [JsonVal.str "exploit"]⟩,
          Flash.removed (JsonVal.str "exploit"))
    ∧ is_malicious "an exploit here" ["exploit"] = true
    ∧ is_malicious "an exploit here" [] = false :=
  ⟨rfl, rfl, rfl⟩

/-- **C8.**  For every stored rule list and every removal index that is
missing, non-numeric, negative, or at least the rule count, the remove
operation leaves the persisted store and the in-memory list unchanged and
flashes an error message ("Invalid index." or "Index out of range."),
without an unhandled fault. -/
theorem C8_remove_out_of_range (l blocked : List JsonVal)
    (form : Option String)
    (h : ∀ i : Int, pyInt (form.getD "-1") = some i →
      ¬(0 ≤ i ∧ i.toNat < l.length)) :
    (admin_remove_rule ⟨Disk.stored (JsonVal.arr l), blocked⟩ form).1
        = ⟨Disk.stored (JsonVal.arr l), blocked⟩
    ∧ ((admin_remove_rule ⟨Disk.stored (JsonVal.arr l), blocked⟩ form).2
          = Flash.invalidIndex
        ∨ (admin_remove_rule ⟨Disk.stored (JsonVal.arr l), blocked⟩ form).2
          = Flash.outOfRange) := by
  unfold admin_remove_rule
  cases hpi : pyInt (form.getD "-1") with
  | none => exact ⟨rfl, Or.inl rfl⟩
  | some i =>
    have hload : load_rules (Disk.stored (JsonVal.arr l))
        = (l, Disk.stored (JsonVal.arr l)) := rfl
    simp only [hload]
    rw [if_neg (h i hpi)]
    exact ⟨rfl, Or.inr rfl⟩

/-- Witness for C8: removing index `99` from a stored 3-element rule set
is a flashed no-op. -/
theorem C8_remove_out_of_range_witness :
    (admin_remove_rule
        ⟨Disk.stored (JsonVal.arr
            [JsonVal.str "a", JsonVal.str "b", JsonVal.str "c"]),
          [JsonVal.str "a", JsonVal.str "b", JsonVal.str "c"]⟩
        (some "99")).1
      = ⟨Disk.stored (JsonVal.arr
            [JsonVal.str "a", JsonVal.str "b", JsonVal.str "c"]),
          [JsonVal.str "a", JsonVal.str "b", JsonVal.str "c"]⟩
    ∧ ((admin_remove_rule
        ⟨Disk.stored (JsonVal.arr
            [JsonVal.str "a", JsonVal.str "b", JsonVal.str "c"]),
          [JsonVal.str "a", JsonVal.str "b", JsonVal.str "c"]⟩
        (some "99")).2 = Flash.invalidIndex
      ∨ (admin_remove_rule
        ⟨Disk.stored (JsonVal.arr
            [JsonVal.str "a", JsonVal.str "b", JsonVal.str "c"]),
          [JsonVal.str "a", JsonVal.str "b", JsonVal.str "c"]⟩
        (some "99")).2 = Flash.outOfRange) :=
  C8_remove_out_of_range _ _ (some "99") (by
    intro i hi
    rw [show pyInt ((some "99").getD "-1") = some 99 from rfl] at hi
    injection hi with hi'
    subst hi'
    decide)

/-- **C9.**  An add request whose pattern is empty or whitespace-only is
rejected before touching the store: the persisted rule set and the
in-memory rule set are both unchanged (for every starting state, even a
corrupt one). -/
theorem C9_add_empty_rejected (st : AppState) (form : Option String)
    (h : pyStrip (form.getD "") = "") :
    admin_add_rule st form = (st, Flash.emptyPattern) := by
  unfold admin_add_rule
  rw [h]
  rfl

/-- Witness for C9: adding a whitespace-only pattern to a concrete state
is rejected with the state untouched. -/
theorem C9_add_empty_rejected_witness :
    admin_add_rule ⟨Disk.stored (JsonVal.arr [JsonVal.str "x"]),
        [JsonVal.str "x"]⟩ (some "   ")
      = (⟨Disk.stored (JsonVal.arr [JsonVal.str "x"]),
          [JsonVal.str "x"]⟩, Flash.emptyPattern) :=
  C9_add_empty_rejected _ (some "   ") rfl

end CYOAI
